import Mathlib

/-!
Verification of the docker-hub-proxy repository: a shallow embedding of
`app/services/proxy_manager.py`, `app/services/traffic_logger.py` and the
header-rewriting / upstream-URL logic of `app/routers/docker_proxy.py`,
together with theorems about the selection algorithm, the prober, traffic
accounting, ingestion deduplication and the auth-challenge rewrite.

Conventions: Python strings are Lean `String`s and the Python string methods
used by the source (`lstrip("/")`, `strip("/")`, `rstrip("/")`, `startswith`,
slicing, `replace`, substring containment) are defined below over `.data`
(lists of characters).  Latencies are natural-number milliseconds; the float
sentinel `9999.0` becomes `9999`.  Database sessions become explicit lists of
rows passed in and out; network effects of the prober are abstracted into a
`ProbeOutcome` argument; wall-clock timestamps (`last_check`) are omitted.
-/

/-- Python `s.lstrip("/")`: remove every leading slash. -/
def lstripSlashes (s : String) : String :=
  String.mk (s.data.dropWhile (fun c => c == '/'))

/-- Python `s.rstrip("/")`: remove every trailing slash. -/
def rstripSlashes (s : String) : String :=
  String.mk ((s.data.reverse.dropWhile (fun c => c == '/')).reverse)

/-- Python `s.strip("/")`: remove leading and trailing slashes. -/
def stripSlashes (s : String) : String :=
  rstripSlashes (lstripSlashes s)

/-- Python `s.startswith(pre)`. -/
def pyStartsWith (s pre : String) : Bool :=
  pre.data.isPrefixOf s.data

/-- Python slice `s[n:]` (clamping, like Python). -/
def pyDrop (s : String) (n : Nat) : String :=
  String.mk (s.data.drop n)

/-- Python substring test `sub in s` on character lists. -/
def containsSub : List Char → List Char → Bool
  | [], sub => sub.isEmpty
  | c :: cs, sub => sub.isPrefixOf (c :: cs) || containsSub cs sub

/-- Python `s.replace(old, new)` scanning left to right, non-overlapping,
continuing after each inserted replacement; `fuel` bounds the scan and is
instantiated with the length of the scanned list (enough, because every step
consumes at least one character). -/
def replaceAllFuel (pat new : List Char) : Nat → List Char → List Char
  | _, [] => []
  | 0, l => l
  | Nat.succ fuel, c :: cs =>
    if pat ≠ [] ∧ pat.isPrefixOf (c :: cs) then
      new ++ replaceAllFuel pat new fuel ((c :: cs).drop pat.length)
    else
      c :: replaceAllFuel pat new fuel cs

/-- Python `s.replace(pat, new)` for nonempty `pat`. -/
def replaceAll (s pat new : List Char) : List Char :=
  replaceAllFuel pat new s.length s

/-- Python truthiness of an optional string: `None` and `""` are falsy. -/
def pyTruthyStr : Option String → Bool
  | none => false
  | some s => !(s == "")

/-- Modelled from the spec: `app/models.py` is not part of the provided
sources, so the `ProxyNode` table row is reconstructed from the spec's data
model.  Field names follow the source except `routePref`, which stands for the
source column `route_prefix`.  Per the spec, `latency` carries the sentinel
`9999` while the node is failed or unmeasured (so a freshly constructed,
never-probed row starts at the sentinel), nodes are created enabled, the
registry type defaults to `"dockerhub"`, and the optional columns default to
`None`.  The `last_check` timestamp column is omitted (wall-clock time). -/
structure ProxyNode where
  id : Nat := 0
  name : String
  url : String
  registry_type : String := "dockerhub"
  routePref : Option String := none
  username : Option String := none
  password : Option String := none
  enabled : Bool := true
  latency : Nat := 9999
  failure_reason : Option String := none
deriving DecidableEq

/-- Modelled from the spec: `app/models.py` is not part of the provided
sources; per the spec a `TrafficStats` row is created lazily for a day with
all three counters starting at zero. -/
structure TrafficStats where
  date : String
  download_bytes : Nat := 0
  upload_bytes : Nat := 0
  request_count : Nat := 0
deriving DecidableEq

/-- Outcome of the single probe request `GET <node.url>/v2/` issued by
`check_proxy_latency`; the network effect is abstracted into this argument:
a response with its status and measured round-trip milliseconds, an
`httpx.ConnectTimeout`, an `httpx.ConnectError`, or any other exception. -/
inductive ProbeOutcome where
  | response (status : Nat) (durationMs : Nat)
  | connectTimeout
  | connectError
  | otherError (msg : String)
deriving DecidableEq

/-- `check_proxy_latency` from `app/services/proxy_manager.py`: statuses 200
and 401 are alive and yield the measured duration with no error; any other
status yields the sentinel and `"Status: <code>"`; a connect timeout yields
`"Connection Timeout"`; a connect error yields `"Connection Failed"`; any
other exception yields its message.  Total: every outcome is mapped to a
`(latency, error)` pair, never an exception. -/
def check_proxy_latency : ProbeOutcome → Nat × Option String
  | .response st d =>
    if st ∈ ([200, 401] : List Nat) then (d, none)
    else (9999, some ("Status: " ++ toString st))
  | .connectTimeout => (9999, some "Connection Timeout")
  | .connectError => (9999, some "Connection Failed")
  | .otherError msg => (9999, some msg)

/-- The node-row update performed by `check_and_update_proxy`: store the
probe's latency and failure reason and set `enabled` to false exactly when the
latency reached the sentinel, true otherwise. -/
def applyProbe (n : ProxyNode) (o : ProbeOutcome) : ProxyNode :=
  let r := check_proxy_latency o
  if r.1 ≥ 9999 then
    { n with latency := r.1, failure_reason := r.2, enabled := false }
  else
    { n with latency := r.1, failure_reason := r.2, enabled := true }

/-- `check_and_update_proxy`: re-fetch the row by id and persist the probe
result; a missing id leaves the store unchanged. -/
def check_and_update_proxy (store : List ProxyNode) (pid : Nat)
    (o : ProbeOutcome) : List ProxyNode :=
  store.map (fun n => if n.id = pid then applyProbe n o else n)

/-- `run_speed_test`: snapshot the ids of the currently enabled nodes, then
probe and persist each one in turn.  The outcome of the probe against the node
with id `pid` is `outcomes pid`. -/
def run_speed_test (store : List ProxyNode)
    (outcomes : Nat → ProbeOutcome) : List ProxyNode :=
  ((store.filter (fun n => n.enabled)).map (fun n => n.id)).foldl
    (fun st pid => check_and_update_proxy st pid (outcomes pid)) store

/-- Stable insertion of a node into a latency-ascending list. -/
def insertByLatency (n : ProxyNode) : List ProxyNode → List ProxyNode
  | [] => [n]
  | m :: ms =>
    if n.latency ≤ m.latency then n :: m :: ms else m :: insertByLatency n ms

/-- Latency-ascending ordering of a node list (the SQL `order_by(latency)`). -/
def sortByLatency : List ProxyNode → List ProxyNode
  | [] => []
  | n :: ns => insertByLatency n (sortByLatency ns)

/-- The pool read by `get_best_proxy`: all rows with `enabled == True` and
`latency < 9999`, ordered by ascending latency. -/
def rankedPool (store : List ProxyNode) : List ProxyNode :=
  sortByLatency (store.filter (fun n => n.enabled && decide (n.latency < 9999)))

/-- The slash-trimmed route-prefix string of a node, `p.route_prefix.strip("/")`
in the source (with `None` read as the empty string; the source only evaluates
it on truthy prefixes). -/
def nodePref (p : ProxyNode) : String :=
  stripSlashes (p.routePref.getD "")

/-- The prefix-pass match condition of `get_best_proxy`: the node has a truthy
`route_prefix` and the path starts with the slash-trimmed prefix followed by
`"/"`. -/
def matchesPre (path : String) (p : ProxyNode) : Bool :=
  pyTruthyStr p.routePref && pyStartsWith path (nodePref p ++ "/")

/-- One iteration of the prefix-pass loop of `get_best_proxy`: the accumulator
carries `(best_match_node, longest_prefix_len)`, the latter starting at `-1`,
and is replaced only by a strictly longer matching prefix. -/
def prefixScanStep (path : String) (acc : Option ProxyNode × Int)
    (p : ProxyNode) : Option ProxyNode × Int :=
  if pyTruthyStr p.routePref then
    if pyStartsWith path (nodePref p ++ "/") then
      if ((nodePref p).length : Int) > acc.2 then
        (some p, ((nodePref p).length : Int))
      else acc
    else acc
  else acc

/-- The whole prefix-pass loop of `get_best_proxy`. -/
def prefixScan (path : String) (proxies : List ProxyNode) :
    Option ProxyNode × Int :=
  proxies.foldl (prefixScanStep path) (none, -1)

/-- The synthetic node returned by `get_best_proxy` when nothing qualifies:
`ProxyNode(name="Fallback Official", url="https://registry-1.docker.io")`,
every other field at its model default; it is never written back to the
store (the function is read-only). -/
def fallback_node : ProxyNode :=
  { name := "Fallback Official", url := "https://registry-1.docker.io" }

/-- `get_best_proxy` from `app/services/proxy_manager.py`: strip leading
slashes from the path, load the enabled sub-sentinel pool ordered by latency,
run the longest-prefix pass (stripping a matched prefix and its slash from the
path), otherwise fall back to the fastest prefix-less node with the path
unchanged, otherwise return the synthetic fallback node with the path
unchanged. -/
def get_best_proxy (store : List ProxyNode) (path : String) :
    ProxyNode × String :=
  match (prefixScan (lstripSlashes path) (rankedPool store)).1 with
  | some best =>
    (best, pyDrop (lstripSlashes path) ((nodePref best).length + 1))
  | none =>
    match (rankedPool store).find? (fun p => !(pyTruthyStr p.routePref)) with
    | some p => (p, lstripSlashes path)
    | none => (fallback_node, lstripSlashes path)

/-- `add_proxy`: unconditionally insert a new row with the given fields (the
id stands for the database-assigned key).  No deduplication is performed. -/
def add_proxy (store : List ProxyNode) (nid : Nat) (name url : String)
    (registry_type : String) (routePref username password : Option String) :
    List ProxyNode :=
  store ++ [{ id := nid, name := name, url := url,
              registry_type := registry_type, routePref := routePref,
              username := username, password := password }]

/-- One record of the external candidate feed consumed by
`fetch_and_update_proxies`: optional name and url, and the tag names. -/
structure CandidateItem where
  name : Option String := none
  url : Option String := none
  tags : List String := []
deriving DecidableEq

/-- The tag filter of `fetch_and_update_proxies`: a tag name containing one of
the marker substrings (paid / intranet / login-required) rejects the item. -/
def tagBad (t : String) : Bool :=
  containsSub t.data "付费".data || containsSub t.data "内网".data ||
    containsSub t.data "需登陆".data

/-- One iteration of the ingestion loop of `fetch_and_update_proxies`: the
accumulator carries `(rows, existing_urls, next id)`.  An item is skipped when
a tag matches the filter, when its url is falsy, or when its normalized url
(trailing slashes removed) or that url plus `"/"` is already known; otherwise
a new enabled row is appended and the normalized url recorded. -/
def ingestStep (acc : List ProxyNode × List String × Nat)
    (item : CandidateItem) : List ProxyNode × List String × Nat :=
  if item.tags.any tagBad then acc
  else
    match item.url with
    | none => acc
    | some u0 =>
      if u0 = "" then acc
      else
        let u := rstripSlashes u0
        if u ∈ acc.2.1 ∨ (u ++ "/") ∈ acc.2.1 then acc
        else
          (acc.1 ++ [{ id := acc.2.2, name := item.name.getD "Unknown Mirror",
                       url := u, enabled := true }],
           acc.2.1 ++ [u], acc.2.2 + 1)

/-- The ingestion core of `fetch_and_update_proxies`: fold the feed into the
store, seeding `existing_urls` with the urls already stored. -/
def fetch_ingest (store : List ProxyNode) (items : List CandidateItem)
    (startId : Nat) : List ProxyNode :=
  (items.foldl ingestStep (store, store.map (fun n => n.url), startId)).1

/-- `log_traffic` from `app/services/traffic_logger.py`, the per-row update:
add the byte counts and bump the call counter by one. -/
def bumpStats (s : TrafficStats) (down up : Nat) : TrafficStats :=
  { s with download_bytes := s.download_bytes + down,
           upload_bytes := s.upload_bytes + up,
           request_count := s.request_count + 1 }

/-- `log_traffic`: update the first row of today's date, or lazily create it
(counters starting at zero) and update that. -/
def log_traffic (store : List TrafficStats) (today : String)
    (down up : Nat) : List TrafficStats :=
  match store with
  | [] => [bumpStats { date := today } down up]
  | s :: rest =>
    if s.date = today then bumpStats s down up :: rest
    else s :: log_traffic rest today down up

/-- The regex `realm="([^\x22]+)"` tried at the head of the list: the literal
`realm="`, then a maximal nonempty run of non-quote characters, then a closing
quote; the capture is that run. -/
def matchRealmAt (l : List Char) : Option (List Char) :=
  if "realm=\"".data.isPrefixOf l then
    let rest := l.drop 7
    let cap := rest.takeWhile (fun c => c != '"')
    match cap, rest.dropWhile (fun c => c != '"') with
    | [], _ => none
    | _ :: _, '"' :: _ => some cap
    | _, _ => none
  else none

/-- `re.search` of `realm="([^\x22]+)"`: the capture of the leftmost match. -/
def searchRealm : List Char → Option (List Char)
  | [] => none
  | c :: cs =>
    match matchRealmAt (c :: cs) with
    | some r => some r
    | none => searchRealm cs

/-- The proxy's own token endpoint `<scheme>://<netloc>/token` substituted for
the upstream realm in `proxy_v2`. -/
def tokenUrl (scheme netloc : String) : String :=
  scheme ++ "://" ++ netloc ++ "/token"

/-- The `WWW-Authenticate` rewrite of `proxy_v2`: if the regex finds a realm
value, replace every occurrence of that value in the header with the proxy's
token URL (Python `str.replace`); otherwise forward the header unchanged.
Total: no failure path exists. -/
def rewrite_www_authenticate (h : String) (scheme netloc : String) : String :=
  match searchRealm h.data with
  | some realm =>
    String.mk (replaceAll h.data realm (tokenUrl scheme netloc).data)
  | none => h

/-- A Python runtime value as far as `proxy_v2`'s upstream-URL expression is
concerned: a `str`, the `(node, adjusted_path)` tuple returned by
`get_best_proxy`, or a `ProxyNode`. -/
inductive PyVal where
  | str (s : String)
  | tuple (n : ProxyNode) (p : String)
  | node (n : ProxyNode)
deriving DecidableEq

/-- Python attribute lookup and call `x.rstrip("/")`: defined on `str` only;
on any other runtime type it raises `AttributeError`. -/
def pyRstripSlash : PyVal → Except String PyVal
  | .str s => .ok (.str (rstripSlashes s))
  | .tuple _ _ => .error "AttributeError: tuple object has no attribute rstrip"
  | .node _ => .error "AttributeError: ProxyNode object has no attribute rstrip"

/-- Python `str(v)` as used by the f-string (only ever reached on `str`). -/
def pyValStr : PyVal → String
  | .str s => s
  | .tuple _ _ => "tuple"
  | .node _ => "ProxyNode"

/-- The upstream-URL construction of `proxy_v2` in
`app/routers/docker_proxy.py`:
`upstream_base = proxy_manager.get_best_proxy()` (called with no path, so the
default `""`), then
`upstream_url = f"{upstream_base.rstrip('/')}/v2/{path}"`, then the query
string appended when truthy.  `upstream_base` is the `(node, adjusted_path)`
tuple, so the attribute lookup is evaluated on a tuple. -/
def proxy_v2_upstream_url (store : List ProxyNode) (path query : String) :
    Except String String :=
  let r := get_best_proxy store ""
  let upstream_base : PyVal := .tuple r.1 r.2
  (pyRstripSlash upstream_base).map (fun v =>
    pyValStr v ++ "/v2/" ++ path ++ (if query = "" then "" else "?" ++ query))

theorem dropWhile_dropWhile_self {α : Type} (p : α → Bool) (l : List α) :
    (l.dropWhile p).dropWhile p = l.dropWhile p := by
  induction l with
  | nil => rfl
  | cons c cs ih =>
    by_cases h : p c
    · simp [List.dropWhile_cons, h, ih]
    · simp [List.dropWhile_cons, h]

theorem rstripSlashes_idem (s : String) :
    rstripSlashes (rstripSlashes s) = rstripSlashes s := by
  unfold rstripSlashes
  apply congrArg
  rw [List.reverse_reverse, dropWhile_dropWhile_self]

theorem lstripSlashes_slash_append (p : String) :
    lstripSlashes ("/" ++ p) = lstripSlashes p := by
  cases p with
  | mk l => rfl

/-- C10: the Selector normalizes leading slashes itself: `get_best_proxy`
applied to `"/" ++ p` returns exactly the same `(node, adjustedPath)` pair as
applied to `p`, for every store state. -/
theorem get_best_proxy_leading_slash (store : List ProxyNode) (p : String) :
    get_best_proxy store ("/" ++ p) = get_best_proxy store p := by
  unfold get_best_proxy
  rw [lstripSlashes_slash_append]

/-- C1: contrary to the claim, the `/v2/` handler `proxy_v2` never builds the
upstream URL `node.url + "/v2/" + adjustedPath`: it calls `get_best_proxy()`
without the request path and applies `.rstrip("/")` to the returned
`(node, adjusted_path)` tuple, which raises `AttributeError` for every store
state, path and query string. -/
theorem proxy_v2_upstream_url_raises (store : List ProxyNode)
    (path query : String) :
    proxy_v2_upstream_url store path query =
      Except.error "AttributeError: tuple object has no attribute rstrip" :=
  rfl

theorem string_head_ne {s t : String} (h : s.data.head? ≠ t.data.head?) :
    s ≠ t := fun he => h (by rw [he])

theorem status_string_head (x : String) :
    ("Status: " ++ x).data.head? = some 'S' := by
  cases x with
  | mk l => rfl

/-- C6: `check_proxy_latency` is total (every probe outcome is mapped to a
`(latency, error)` pair, no exception escapes): statuses 200 and 401 yield the
measured duration and no error; any other status, a connect timeout, or a
connect error yield the sentinel 9999 together with reason strings that
distinguish timeout from connection failure from unexpected status. -/
theorem check_proxy_latency_total :
    (∀ st d, st = 200 ∨ st = 401 →
        check_proxy_latency (.response st d) = (d, none))
    ∧ (∀ st d, st ≠ 200 → st ≠ 401 →
        check_proxy_latency (.response st d) =
          (9999, some ("Status: " ++ toString st)))
    ∧ check_proxy_latency .connectTimeout = (9999, some "Connection Timeout")
    ∧ check_proxy_latency .connectError = (9999, some "Connection Failed")
    ∧ (∀ msg, check_proxy_latency (.otherError msg) = (9999, some msg))
    ∧ (∀ st : Nat, ("Status: " ++ toString st) ≠ "Connection Timeout"
        ∧ ("Status: " ++ toString st) ≠ "Connection Failed")
    ∧ ("Connection Timeout" : String) ≠ "Connection Failed" := by
  refine ⟨?_, ?_, rfl, rfl, fun _ => rfl, ?_, by decide⟩
  · intro st d h
    have hmem : st ∈ ([200, 401] : List Nat) := by
      rcases h with rfl | rfl <;> decide
    simp [check_proxy_latency, hmem]
  · intro st d h1 h2
    have hmem : st ∉ ([200, 401] : List Nat) := by simp [h1, h2]
    simp [check_proxy_latency, hmem]
  · intro st
    constructor <;>
      exact string_head_ne (by rw [status_string_head]; decide)

/-- Witness for C6 at concrete outcomes: an alive 401 probe and a 503
probe. -/
theorem check_proxy_latency_total_witness :
    check_proxy_latency (.response 401 37) = (37, none)
    ∧ check_proxy_latency (.response 503 12) =
        (9999, some ("Status: " ++ toString (503 : Nat))) :=
  ⟨check_proxy_latency_total.1 401 37 (Or.inr rfl),
   check_proxy_latency_total.2.1 503 12 (by decide) (by decide)⟩

theorem prefixScanStep_no_match (path : String) (acc : Option ProxyNode × Int)
    (p : ProxyNode) (h : matchesPre path p = false) :
    prefixScanStep path acc p = acc := by
  unfold matchesPre at h
  unfold prefixScanStep
  by_cases h1 : pyTruthyStr p.routePref
  · simp only [h1, Bool.true_and] at h
    simp [h1, h]
  · simp [h1]

theorem prefixScanStep_snd_le (path : String) (acc : Option ProxyNode × Int)
    (p : ProxyNode) : acc.2 ≤ (prefixScanStep path acc p).2 := by
  unfold prefixScanStep
  split_ifs with h1 h2 h3 <;> simp <;> omega

theorem prefixScan_snd_mono (path : String) (l : List ProxyNode) :
    ∀ acc : Option ProxyNode × Int,
      acc.2 ≤ (l.foldl (prefixScanStep path) acc).2 := by
  induction l with
  | nil => intro acc; exact le_refl _
  | cons p ps ih =>
    intro acc
    simp only [List.foldl_cons]
    exact le_trans (prefixScanStep_snd_le path acc p) (ih _)

theorem prefixScanStep_match_le (path : String) (acc : Option ProxyNode × Int)
    (p : ProxyNode) (h : matchesPre path p = true) :
    ((nodePref p).length : Int) ≤ (prefixScanStep path acc p).2 := by
  obtain ⟨h1, h2⟩ : pyTruthyStr p.routePref = true
      ∧ pyStartsWith path (nodePref p ++ "/") = true := by
    simpa [matchesPre] using h
  unfold prefixScanStep
  simp only [h1, h2, if_true]
  split_ifs with h3
  · simp
  · omega

theorem prefixScan_le_of_match (path : String) :
    ∀ (l : List ProxyNode) (acc : Option ProxyNode × Int) (p : ProxyNode),
      p ∈ l → matchesPre path p = true →
      ((nodePref p).length : Int) ≤ (l.foldl (prefixScanStep path) acc).2 := by
  intro l
  induction l with
  | nil => intro acc p hp; exact absurd hp (List.not_mem_nil p)
  | cons q qs ih =>
    intro acc p hp hm
    simp only [List.foldl_cons]
    rcases List.mem_cons.mp hp with rfl | hmem
    · exact le_trans (prefixScanStep_match_le path acc p hm)
        (prefixScan_snd_mono path qs _)
    · exact ih _ p hmem hm

theorem prefixScan_result_spec (path : String) :
    ∀ (l : List ProxyNode) (acc : Option ProxyNode × Int) (b : ProxyNode)
      (L : Int), l.foldl (prefixScanStep path) acc = (some b, L) →
      (b ∈ l ∧ matchesPre path b = true ∧ L = ((nodePref b).length : Int))
        ∨ acc = (some b, L) := by
  intro l
  induction l with
  | nil => intro acc b L h; exact Or.inr h
  | cons q qs ih =>
    intro acc b L h
    simp only [List.foldl_cons] at h
    rcases ih _ b L h with ⟨hmem, hm, hL⟩ | heq
    · exact Or.inl ⟨List.mem_cons_of_mem _ hmem, hm, hL⟩
    · by_cases h1 : pyTruthyStr q.routePref
      · by_cases h2 : pyStartsWith path (nodePref q ++ "/")
        · by_cases h3 : ((nodePref q).length : Int) > acc.2
          · have hq : (some q, ((nodePref q).length : Int)) =
                ((some b : Option ProxyNode), L) := by
              simpa [prefixScanStep, h1, h2, h3] using heq
            have hb : q = b := by
              have := congrArg Prod.fst hq
              simpa using this
            have hL : ((nodePref q).length : Int) = L := congrArg Prod.snd hq
            subst hb
            exact Or.inl ⟨List.mem_cons_self _ _, by simp [matchesPre, h1, h2],
              hL.symm⟩
          · exact Or.inr (by simpa [prefixScanStep, h1, h2, h3] using heq)
        · exact Or.inr (by simpa [prefixScanStep, h1, h2] using heq)
      · exact Or.inr (by simpa [prefixScanStep, h1] using heq)

theorem prefixScan_stable (path : String) :
    ∀ (l : List ProxyNode) (a : ProxyNode) (La : Int) (b : ProxyNode) (L : Int),
      l.foldl (prefixScanStep path) (some a, La) = (some b, L) → L ≤ La →
      b = a := by
  intro l
  induction l with
  | nil =>
    intro a La b L h hle
    have := congrArg Prod.fst h
    simpa [eq_comm] using this
  | cons q qs ih =>
    intro a La b L h hle
    simp only [List.foldl_cons] at h
    by_cases h1 : pyTruthyStr q.routePref
    · by_cases h2 : pyStartsWith path (nodePref q ++ "/")
      · by_cases h3 : ((nodePref q).length : Int) > (La : Int)
        · have hstep : prefixScanStep path (some a, La) q =
              (some q, ((nodePref q).length : Int)) := by
            simp [prefixScanStep, h1, h2, h3]
          rw [hstep] at h
          have hmono := prefixScan_snd_mono path qs
            ((some q : Option ProxyNode), ((nodePref q).length : Int))
          rw [h] at hmono
          simp at hmono
          exfalso
          omega
        · have hstep : prefixScanStep path (some a, La) q = (some a, La) := by
            simp [prefixScanStep, h1, h2, h3]
          rw [hstep] at h
          exact ih a La b L h hle
      · have hstep : prefixScanStep path (some a, La) q = (some a, La) := by
          simp [prefixScanStep, h1, h2]
        rw [hstep] at h
        exact ih a La b L h hle
    · have hstep : prefixScanStep path (some a, La) q = (some a, La) := by
        simp [prefixScanStep, h1]
      rw [hstep] at h
      exact ih a La b L h hle

theorem prefixScan_first_max (path : String) :
    ∀ (l : List ProxyNode) (a : ProxyNode), matchesPre path a = true →
      ∀ (b : ProxyNode) (L : Int),
        l.foldl (prefixScanStep path) (some a, ((nodePref a).length : Int)) =
          (some b, L) →
        (nodePref b).length ≠ (nodePref a).length →
        l.find? (fun q => matchesPre path q &&
          ((nodePref q).length == (nodePref b).length)) = some b := by
  intro l
  induction l with
  | nil =>
    intro a ha b L h hne
    exfalso
    have hb : b = a := by
      have := congrArg Prod.fst h
      simpa [eq_comm] using this
    exact hne (by rw [hb])
  | cons q qs ih =>
    intro a ha b L h hne
    simp only [List.foldl_cons] at h
    by_cases hm : matchesPre path q = true
    · obtain ⟨h1, h2⟩ : pyTruthyStr q.routePref = true
          ∧ pyStartsWith path (nodePref q ++ "/") = true := by
        simpa [matchesPre] using hm
      by_cases h3 : ((nodePref q).length : Int) > ((nodePref a).length : Int)
      · have hstep : prefixScanStep path
            (some a, ((nodePref a).length : Int)) q =
            (some q, ((nodePref q).length : Int)) := by
          simp [prefixScanStep, h1, h2, h3]
        rw [hstep] at h
        have hLb : L = ((nodePref b).length : Int) := by
          rcases prefixScan_result_spec path qs _ b L h with ⟨_, _, hL⟩ | heq
          · exact hL
          · have hb : q = b := by
              have := congrArg Prod.fst heq
              simpa using this
            have hsnd := congrArg Prod.snd heq
            simp at hsnd
            rw [← hsnd, hb]
        by_cases h4 : (nodePref q).length = (nodePref b).length
        · have hb : b = q := by
            apply prefixScan_stable path qs q _ b L h
            rw [hLb]
            exact_mod_cast Nat.le_of_eq h4.symm
          rw [hb]
          apply List.find?_cons_of_pos
          simp [hm, h4]
        · rw [List.find?_cons_of_neg]
          · exact ih q hm b L h (fun he => h4 he.symm)
          · simp [hm, h4]
      · have hstep : prefixScanStep path
            (some a, ((nodePref a).length : Int)) q =
            (some a, ((nodePref a).length : Int)) := by
          simp [prefixScanStep, h1, h2, h3]
        rw [hstep] at h
        have hLb : L = ((nodePref b).length : Int) := by
          rcases prefixScan_result_spec path qs _ b L h with ⟨_, _, hL⟩ | heq
          · exact hL
          · exfalso
            have hb : a = b := by
              have := congrArg Prod.fst heq
              simpa using this
            exact hne (by rw [← hb])
        have hmono := prefixScan_snd_mono path qs
          ((some a : Option ProxyNode), ((nodePref a).length : Int))
        rw [h] at hmono
        simp at hmono
        rw [List.find?_cons_of_neg]
        · exact ih a ha b L h hne
        · intro hc
          have h4 : (nodePref q).length = (nodePref b).length := by
            simpa [hm] using hc
          omega
    · have hm' : matchesPre path q = false := by simpa using hm
      rw [prefixScanStep_no_match path _ q hm'] at h
      rw [List.find?_cons_of_neg]
      · exact ih a ha b L h hne
      · simp [hm']

theorem prefixScan_from_none (path : String) :
    ∀ (l : List ProxyNode) (b : ProxyNode) (L : Int),
      l.foldl (prefixScanStep path) (none, -1) = (some b, L) →
      l.find? (fun q => matchesPre path q &&
        ((nodePref q).length == (nodePref b).length)) = some b := by
  intro l
  induction l with
  | nil =>
    intro b L h
    exfalso
    have := congrArg Prod.fst h
    simp at this
  | cons q qs ih =>
    intro b L h
    simp only [List.foldl_cons] at h
    by_cases hm : matchesPre path q = true
    · obtain ⟨h1, h2⟩ : pyTruthyStr q.routePref = true
          ∧ pyStartsWith path (nodePref q ++ "/") = true := by
        simpa [matchesPre] using hm
      have h3 : ((nodePref q).length : Int) > (-1 : Int) := by omega
      have hstep : prefixScanStep path (none, -1) q =
          (some q, ((nodePref q).length : Int)) := by
        simp [prefixScanStep, h1, h2, h3]
      rw [hstep] at h
      have hLb : L = ((nodePref b).length : Int) := by
        rcases prefixScan_result_spec path qs _ b L h with ⟨_, _, hL⟩ | heq
        · exact hL
        · have hb : q = b := by
            have := congrArg Prod.fst heq
            simpa using this
          have hsnd := congrArg Prod.snd heq
          simp at hsnd
          rw [← hsnd, hb]
      by_cases h4 : (nodePref q).length = (nodePref b).length
      · have hb : b = q := by
          apply prefixScan_stable path qs q _ b L h
          rw [hLb]
          exact_mod_cast Nat.le_of_eq h4.symm
        rw [hb]
        apply List.find?_cons_of_pos
        simp [hm, h4]
      · rw [List.find?_cons_of_neg]
        · exact prefixScan_first_max path qs q hm b L h (fun he => h4 he.symm)
        · simp [hm, h4]
    · have hm' : matchesPre path q = false := by simpa using hm
      rw [prefixScanStep_no_match path _ q hm'] at h
      rw [List.find?_cons_of_neg]
      · exact ih b L h
      · simp [hm']

theorem prefixScan_acc_of_no_match (path : String) :
    ∀ (l : List ProxyNode) (acc : Option ProxyNode × Int),
      (∀ q ∈ l, matchesPre path q = false) →
      l.foldl (prefixScanStep path) acc = acc := by
  intro l
  induction l with
  | nil => intro acc _; rfl
  | cons q qs ih =>
    intro acc hall
    simp only [List.foldl_cons]
    rw [prefixScanStep_no_match path acc q (hall q (List.mem_cons_self q qs))]
    exact ih acc (fun p hp => hall p (List.mem_cons_of_mem q hp))

theorem mem_insertByLatency (m n : ProxyNode) (l : List ProxyNode) :
    m ∈ insertByLatency n l ↔ m = n ∨ m ∈ l := by
  induction l with
  | nil => simp [insertByLatency]
  | cons p ps ih =>
    by_cases h : n.latency ≤ p.latency
    · simp [insertByLatency, h]
    · simp [insertByLatency, h, ih]
      tauto

theorem mem_sortByLatency (m : ProxyNode) (l : List ProxyNode) :
    m ∈ sortByLatency l ↔ m ∈ l := by
  induction l with
  | nil => simp [sortByLatency]
  | cons p ps ih =>
    simp [sortByLatency, mem_insertByLatency, ih]

theorem pairwise_insertByLatency (n : ProxyNode) (l : List ProxyNode)
    (h : l.Pairwise (fun a c => a.latency ≤ c.latency)) :
    (insertByLatency n l).Pairwise (fun a c => a.latency ≤ c.latency) := by
  induction l with
  | nil => simp [insertByLatency]
  | cons p ps ih =>
    rcases List.pairwise_cons.mp h with ⟨hp, hps⟩
    by_cases hle : n.latency ≤ p.latency
    · rw [insertByLatency, if_pos hle]
      refine List.pairwise_cons.mpr ⟨?_, h⟩
      intro m hm
      rcases List.mem_cons.mp hm with rfl | hm'
      · exact hle
      · exact le_trans hle (hp m hm')
    · rw [insertByLatency, if_neg hle]
      refine List.pairwise_cons.mpr ⟨?_, ih hps⟩
      intro m hm
      rcases (mem_insertByLatency m n ps).mp hm with rfl | hm'
      · exact le_of_not_le hle
      · exact hp m hm'

theorem pairwise_sortByLatency (l : List ProxyNode) :
    (sortByLatency l).Pairwise (fun a c => a.latency ≤ c.latency) := by
  induction l with
  | nil => simp [sortByLatency]
  | cons p ps ih => exact pairwise_insertByLatency p (sortByLatency ps) ih

theorem mem_rankedPool (store : List ProxyNode) (q : ProxyNode)
    (hq : q ∈ rankedPool store) : q.enabled = true ∧ q.latency < 9999 := by
  unfold rankedPool at hq
  have hmem := (mem_sortByLatency q _).mp hq
  have hfil := List.of_mem_filter hmem
  simpa using hfil

/-- C2: in the prefix pass of `get_best_proxy`, when the scan settles on a
node `b`, that node matches the (slash-normalized) path, its slash-trimmed
prefix is longest among all matching nodes of the latency-ranked pool, an
equal-length tie keeps the earliest (fastest, since the pool is sorted
ascending by latency) node, and the returned pair is `b` together with the
path with the prefix and its separating slash removed
(`path[len(prefix)+1:]`). -/
theorem get_best_proxy_prefix_pass (store : List ProxyNode) (path : String)
    (b : ProxyNode)
    (hb : (prefixScan (lstripSlashes path) (rankedPool store)).1 = some b) :
    matchesPre (lstripSlashes path) b = true
    ∧ (∀ q ∈ rankedPool store, matchesPre (lstripSlashes path) q = true →
        (nodePref q).length ≤ (nodePref b).length)
    ∧ (rankedPool store).find? (fun q => matchesPre (lstripSlashes path) q &&
        ((nodePref q).length == (nodePref b).length)) = some b
    ∧ get_best_proxy store path =
        (b, pyDrop (lstripSlashes path) ((nodePref b).length + 1))
    ∧ (rankedPool store).Pairwise (fun a c => a.latency ≤ c.latency) := by
  have hpair : prefixScan (lstripSlashes path) (rankedPool store) =
      (some b, (prefixScan (lstripSlashes path) (rankedPool store)).2) := by
    rw [← hb]
  unfold prefixScan at hpair
  rcases prefixScan_result_spec (lstripSlashes path) (rankedPool store)
      (none, -1) b _ hpair with ⟨hmem, hmatch, hL⟩ | habs
  · refine ⟨hmatch, ?_, ?_, ?_, pairwise_sortByLatency _⟩
    · intro q hq hmq
      have := prefixScan_le_of_match (lstripSlashes path) (rankedPool store)
        (none, -1) q hq hmq
      rw [hL] at this
      exact_mod_cast this
    · exact prefixScan_from_none (lstripSlashes path) (rankedPool store) b _
        hpair
    · unfold get_best_proxy
      rw [hb]
  · exfalso
    have := congrArg Prod.fst habs
    simp at this

/-- Witness for C2: nodes with prefixes `"a"` (latency 10) and `"a/b"`
(latency 20); the request `"a/b/image"` selects the longer prefix `"a/b"`
and strips it, even though the `"a"` node is faster. -/
theorem get_best_proxy_prefix_pass_witness :
    get_best_proxy
      [{ id := 1, name := "A", url := "https://a.example", routePref := some "a",
         latency := 10 },
       { id := 2, name := "AB", url := "https://ab.example",
         routePref := some "a/b", latency := 20 }] "a/b/image" =
      ({ id := 2, name := "AB", url := "https://ab.example",
         routePref := some "a/b", latency := 20 }, "image") :=
  ((get_best_proxy_prefix_pass
      [{ id := 1, name := "A", url := "https://a.example", routePref := some "a",
         latency := 10 },
       { id := 2, name := "AB", url := "https://ab.example",
         routePref := some "a/b", latency := 20 }] "a/b/image"
      { id := 2, name := "AB", url := "https://ab.example",
         routePref := some "a/b", latency := 20 }
      (by decide)).2.2.2.1).trans (by decide)

/-- C4 amended: `get_best_proxy` never returns a disabled node; every returned
node is either a member of the enabled, sub-sentinel latency pool or the
synthetic fallback node — and the fallback node, being a freshly constructed,
never-probed row, carries the unmeasured sentinel latency `9999`, so the
original claim's latency bound does not extend to it. -/
theorem get_best_proxy_pool_or_fallback (store : List ProxyNode)
    (path : String) :
    ((get_best_proxy store path).1 ∈ rankedPool store ∨
      (get_best_proxy store path).1 = fallback_node)
    ∧ (get_best_proxy store path).1.enabled = true
    ∧ (∀ q ∈ rankedPool store, q.enabled = true ∧ q.latency < 9999)
    ∧ fallback_node.latency = 9999 := by
  refine ?_
  have hpool : ∀ q ∈ rankedPool store, q.enabled = true ∧ q.latency < 9999 :=
    fun q hq => mem_rankedPool store q hq
  cases hscan : (prefixScan (lstripSlashes path) (rankedPool store)).1 with
  | some b =>
    have hmem : b ∈ rankedPool store := by
      have hpair : prefixScan (lstripSlashes path) (rankedPool store) =
          (some b, (prefixScan (lstripSlashes path) (rankedPool store)).2) := by
        rw [← hscan]
      unfold prefixScan at hpair
      rcases prefixScan_result_spec (lstripSlashes path) (rankedPool store)
          (none, -1) b _ hpair with ⟨hmem, _, _⟩ | habs
      · exact hmem
      · exfalso
        have := congrArg Prod.fst habs
        simp at this
    have hres : (get_best_proxy store path).1 = b := by
      unfold get_best_proxy
      rw [hscan]
    rw [hres]
    exact ⟨Or.inl hmem, (hpool b hmem).1, hpool, rfl⟩
  | none =>
    cases hfind : (rankedPool store).find?
        (fun p => !(pyTruthyStr p.routePref)) with
    | some p =>
      have hmem : p ∈ rankedPool store := List.mem_of_find?_eq_some hfind
      have hres : (get_best_proxy store path).1 = p := by
        unfold get_best_proxy
        rw [hscan, hfind]
      rw [hres]
      exact ⟨Or.inl hmem, (hpool p hmem).1, hpool, rfl⟩
    | none =>
      have hres : (get_best_proxy store path).1 = fallback_node := by
        unfold get_best_proxy
        rw [hscan, hfind]
      rw [hres]
      exact ⟨Or.inr rfl, rfl, hpool, rfl⟩

/-- C4 counterexample: with an empty store and path `"foo"`, `get_best_proxy`
returns the synthetic fallback node, whose latency equals the sentinel 9999 —
so the claim that the returned node never has `latency ≥ 9999` fails. -/
theorem get_best_proxy_fallback_sentinel :
    (get_best_proxy [] "foo").1.latency = 9999
    ∧ ¬ (get_best_proxy [] "foo").1.latency < 9999 := by
  constructor <;> decide

/-- C5: whenever nothing in the pool qualifies — every pool node fails the
prefix match and every pool node is prefix-tagged (which in particular covers
the empty pool) — `get_best_proxy` raises no error and returns the synthetic
never-persisted (the function is read-only on the store) fallback node whose
url is the canonical public registry, together with the original
(slash-normalized) path unchanged. -/
theorem get_best_proxy_total_fallback (store : List ProxyNode) (path : String)
    (hp : lstripSlashes path = path)
    (hmatch : ∀ q ∈ rankedPool store, matchesPre path q = false)
    (hpref : ∀ q ∈ rankedPool store, pyTruthyStr q.routePref = true) :
    get_best_proxy store path = (fallback_node, path)
    ∧ fallback_node.url = "https://registry-1.docker.io" := by
  constructor
  · have h1 : (prefixScan path (rankedPool store)).1 = none := by
      unfold prefixScan
      rw [prefixScan_acc_of_no_match path (rankedPool store) (none, -1) hmatch]
    have h2 : (rankedPool store).find?
        (fun p => !(pyTruthyStr p.routePref)) = none := by
      apply List.find?_eq_none.mpr
      intro q hq
      simp [hpref q hq]
    unfold get_best_proxy
    rw [hp, h1, h2]
  · rfl

/-- Witness for C5: zero stored nodes and path `"foo"` yield the fallback node
and the unchanged path `"foo"`. -/
theorem get_best_proxy_total_fallback_witness :
    get_best_proxy [] "foo" = (fallback_node, "foo")
    ∧ fallback_node.url = "https://registry-1.docker.io" :=
  get_best_proxy_total_fallback [] "foo" (by decide) (by decide) (by decide)

theorem applyProbe_id (n : ProxyNode) (o : ProbeOutcome) :
    (applyProbe n o).id = n.id := by
  unfold applyProbe
  by_cases h : (check_proxy_latency o).1 ≥ 9999 <;> simp [h]

theorem foldl_check_and_update_getElem (f : Nat → ProbeOutcome) :
    ∀ (L : List Nat), L.Nodup →
      ∀ (s : List ProxyNode) (i : Nat) (n : ProxyNode), s[i]? = some n →
        (L.foldl (fun st pid => check_and_update_proxy st pid (f pid)) s)[i]? =
          some (if n.id ∈ L then applyProbe n (f n.id) else n) := by
  intro L
  induction L with
  | nil =>
    intro _ s i n h
    simpa using h
  | cons pid rest ih =>
    intro hnd s i n h
    simp only [List.foldl_cons]
    have hstep : (check_and_update_proxy s pid (f pid))[i]? =
        some (if n.id = pid then applyProbe n (f pid) else n) := by
      unfold check_and_update_proxy
      rw [List.getElem?_map, h]
      rfl
    obtain ⟨hpid_not, hrest⟩ := List.nodup_cons.mp hnd
    by_cases hid : n.id = pid
    · have h2 := ih hrest _ i (applyProbe n (f pid))
        (by rw [hstep, if_pos hid])
      rw [h2]
      have hno : (applyProbe n (f pid)).id ∉ rest := by
        rw [applyProbe_id, hid]
        exact hpid_not
      rw [if_neg hno, if_pos (by rw [hid]; exact List.mem_cons_self pid rest),
        hid]
    · have h2 := ih hrest _ i n (by rw [hstep, if_neg hid])
      rw [h2]
      by_cases hmem : n.id ∈ rest
      · rw [if_pos hmem, if_pos (List.mem_cons_of_mem pid hmem)]
      · rw [if_neg hmem, if_neg (by simp [hid, hmem])]

theorem enabled_ids_nodup (store : List ProxyNode)
    (hids : (store.map (fun n => n.id)).Nodup) :
    (((store.filter (fun m => m.enabled)).map (fun m => m.id))).Nodup := by
  have hsub : List.Sublist ((store.filter (fun m => m.enabled)).map
      (fun m => m.id)) (store.map (fun n => n.id)) :=
    (List.filter_sublist store).map (fun m => m.id)
  exact hids.sublist hsub

theorem id_mem_enabled_ids (store : List ProxyNode)
    (hids : (store.map (fun n => n.id)).Nodup) (n : ProxyNode)
    (hn : n ∈ store) :
    n.id ∈ (store.filter (fun m => m.enabled)).map (fun m => m.id) ↔
      n.enabled = true := by
  constructor
  · intro h
    obtain ⟨m, hm, hmid⟩ := List.mem_map.mp h
    have hmst := List.mem_of_mem_filter hm
    have hmen := List.of_mem_filter hm
    have hmn : m = n := List.inj_on_of_nodup_map hids hmst hn hmid
    rw [← hmn]
    simpa using hmen
  · intro h
    exact List.mem_map_of_mem _ (List.mem_filter.mpr ⟨hn, by simp [h]⟩)

theorem run_speed_test_getElem (store : List ProxyNode)
    (f : Nat → ProbeOutcome) (hids : (store.map (fun n => n.id)).Nodup)
    (i : Nat) (n : ProxyNode) (h : store[i]? = some n) :
    (run_speed_test store f)[i]? =
      some (if n.id ∈ (store.filter (fun m => m.enabled)).map (fun m => m.id)
        then applyProbe n (f n.id) else n) :=
  foldl_check_and_update_getElem f _ (enabled_ids_nodup store hids) store i n h

theorem run_speed_test_disabled (store : List ProxyNode)
    (f : Nat → ProbeOutcome) (hids : (store.map (fun n => n.id)).Nodup)
    (i : Nat) (n : ProxyNode) (h : store[i]? = some n)
    (he : n.enabled = false) : (run_speed_test store f)[i]? = some n := by
  rw [run_speed_test_getElem store f hids i n h, if_neg]
  intro hmem
  have hn : n ∈ store := List.getElem?_mem h
  have := (id_mem_enabled_ids store hids n hn).mp hmem
  rw [he] at this
  cases this

theorem map_id_check_and_update (st : List ProxyNode) (pid : Nat)
    (o : ProbeOutcome) :
    (check_and_update_proxy st pid o).map (fun n => n.id) =
      st.map (fun n => n.id) := by
  unfold check_and_update_proxy
  rw [List.map_map]
  apply List.map_congr_left
  intro m _
  by_cases h : m.id = pid <;> simp [h, applyProbe_id]

theorem map_id_run_speed_test (store : List ProxyNode)
    (f : Nat → ProbeOutcome) :
    (run_speed_test store f).map (fun n => n.id) =
      store.map (fun n => n.id) := by
  unfold run_speed_test
  suffices hgen : ∀ (L : List Nat) (s : List ProxyNode),
      (L.foldl (fun st pid => check_and_update_proxy st pid (f pid)) s).map
        (fun n => n.id) = s.map (fun n => n.id) from hgen _ _
  intro L
  induction L with
  | nil => intro s; rfl
  | cons pid rest ih =>
    intro s
    simp only [List.foldl_cons]
    rw [ih, map_id_check_and_update]

theorem run_speed_test_disabled_multi (fs : List (Nat → ProbeOutcome)) :
    ∀ (store : List ProxyNode), (store.map (fun n => n.id)).Nodup →
      ∀ (i : Nat) (n : ProxyNode), store[i]? = some n → n.enabled = false →
        (fs.foldl run_speed_test store)[i]? = some n := by
  induction fs with
  | nil =>
    intro store _ i n h _
    simpa using h
  | cons f rest ih =>
    intro store hids i n h he
    simp only [List.foldl_cons]
    refine ih (run_speed_test store f) ?_ i n ?_ he
    · rw [map_id_run_speed_test]
      exact hids
    · exact run_speed_test_disabled store f hids i n h he

/-- C7: `run_speed_test` enumerates only the enabled rows — a disabled row is
left untouched by every subsequent run, no matter the probe outcomes, until an
external actor re-enables it (one-way disable) — and each probed row is
persisted with the probe's latency and failure reason and with
`enabled = (latency < 9999)`. -/
theorem run_speed_test_one_way (store : List ProxyNode)
    (hids : (store.map (fun n => n.id)).Nodup) :
    (∀ (f : Nat → ProbeOutcome) (i : Nat) (n : ProxyNode),
        store[i]? = some n → n.enabled = true →
        (run_speed_test store f)[i]? = some (applyProbe n (f n.id)))
    ∧ (∀ (n : ProxyNode) (o : ProbeOutcome),
        (applyProbe n o).latency = (check_proxy_latency o).1
        ∧ (applyProbe n o).failure_reason = (check_proxy_latency o).2
        ∧ (applyProbe n o).enabled = decide ((applyProbe n o).latency < 9999))
    ∧ (∀ (fs : List (Nat → ProbeOutcome)) (i : Nat) (n : ProxyNode),
        store[i]? = some n → n.enabled = false →
        (fs.foldl run_speed_test store)[i]? = some n) := by
  refine ⟨?_, ?_, ?_⟩
  · intro f i n h he
    rw [run_speed_test_getElem store f hids i n h,
      if_pos ((id_mem_enabled_ids store hids n (List.getElem?_mem h)).mpr he)]
  · intro n o
    simp only [applyProbe]
    split_ifs with hc
    · exact ⟨rfl, rfl, by simp [decide_eq_false (Nat.not_lt.mpr hc)]⟩
    · exact ⟨rfl, rfl, by simp [decide_eq_true (Nat.lt_of_not_le hc)]⟩
  · intro fs i n h he
    exact run_speed_test_disabled_multi fs store hids i n h he

/-- Witness for C7: a two-node store — node 1 enabled, node 2 disabled — under
an always-timing-out probe: node 1 is probed and persisted, node 2 is left
untouched by a run. -/
theorem run_speed_test_one_way_witness :
    (run_speed_test
      [{ id := 1, name := "A", url := "https://a.example", latency := 50 },
       { id := 2, name := "B", url := "https://b.example", enabled := false }]
      (fun _ => ProbeOutcome.connectTimeout))[0]? =
        some (applyProbe
          { id := 1, name := "A", url := "https://a.example", latency := 50 }
          ProbeOutcome.connectTimeout)
    ∧ ([fun _ => ProbeOutcome.connectTimeout].foldl run_speed_test
      [{ id := 1, name := "A", url := "https://a.example", latency := 50 },
       { id := 2, name := "B", url := "https://b.example", enabled := false }])[1]? =
        some { id := 2, name := "B", url := "https://b.example",
               enabled := false } := by
  have h := run_speed_test_one_way
    [{ id := 1, name := "A", url := "https://a.example", latency := 50 },
     { id := 2, name := "B", url := "https://b.example", enabled := false }]
    (by decide)
  exact ⟨h.1 (fun _ => ProbeOutcome.connectTimeout) 0
      { id := 1, name := "A", url := "https://a.example", latency := 50 }
      rfl rfl,
    h.2.2 [fun _ => ProbeOutcome.connectTimeout] 1
      { id := 2, name := "B", url := "https://b.example", enabled := false }
      rfl rfl⟩

theorem log_traffic_getElem (today : String) (down up : Nat) :
    ∀ (store : List TrafficStats),
      (store.map (fun s => s.date)).Nodup →
      ∀ (i : Nat) (s : TrafficStats), store[i]? = some s →
        (log_traffic store today down up)[i]? =
          some (if s.date = today then bumpStats s down up else s) := by
  intro store
  induction store with
  | nil =>
    intro _ i s h
    simp at h
  | cons hd tl ih =>
    intro hdates i s h
    obtain ⟨hhd, htl⟩ := List.nodup_cons.mp hdates
    have hhd' : hd.date ∉ tl.map (fun s => s.date) := hhd
    by_cases hh : hd.date = today
    · simp only [log_traffic, if_pos hh]
      cases i with
      | zero =>
        have hs : hd = s := by simpa using h
        rw [← hs, if_pos hh]
        simp
      | succ j =>
        simp only [List.getElem?_cons_succ] at h ⊢
        have hs : s ∈ tl := List.getElem?_mem h
        have hsd : s.date ≠ today := by
          intro he
          exact hhd' (by rw [hh, ← he]; exact List.mem_map_of_mem _ hs)
        rw [if_neg hsd]
        exact h
    · simp only [log_traffic, if_neg hh]
      cases i with
      | zero =>
        have hs : hd = s := by simpa using h
        rw [← hs, if_neg hh]
        simp
      | succ j =>
        simp only [List.getElem?_cons_succ] at h ⊢
        exact ih htl j s h

theorem log_traffic_append_of_absent (today : String) (down up : Nat) :
    ∀ (store : List TrafficStats), (∀ s ∈ store, s.date ≠ today) →
      log_traffic store today down up =
        store ++ [{ date := today, download_bytes := down,
                    upload_bytes := up, request_count := 1 }] := by
  intro store
  induction store with
  | nil =>
    intro _
    simp [log_traffic, bumpStats]
  | cons hd tl ih =>
    intro h
    have hh : hd.date ≠ today := h hd (List.mem_cons_self hd tl)
    simp only [log_traffic, if_neg hh, List.cons_append]
    rw [ih (fun s hs => h s (List.mem_cons_of_mem hd hs))]

/-- C9: every `log_traffic` call adds exactly the byte arguments to today's
counters and exactly 1 to today's call counter, creating today's row lazily
(from zeroed counters) when absent; rows of other days are returned unchanged
and every row's counters are monotonically non-decreasing. -/
theorem log_traffic_spec (store : List TrafficStats) (today : String)
    (down up : Nat) (hdates : (store.map (fun s => s.date)).Nodup) :
    (∀ (i : Nat) (s : TrafficStats), store[i]? = some s →
        (log_traffic store today down up)[i]? =
          some (if s.date = today then bumpStats s down up else s))
    ∧ ((∀ s ∈ store, s.date ≠ today) →
        log_traffic store today down up =
          store ++ [{ date := today, download_bytes := down,
                      upload_bytes := up, request_count := 1 }])
    ∧ (∀ (i : Nat) (s : TrafficStats), store[i]? = some s →
        ∃ s', (log_traffic store today down up)[i]? = some s'
          ∧ s'.date = s.date
          ∧ s.download_bytes ≤ s'.download_bytes
          ∧ s.upload_bytes ≤ s'.upload_bytes
          ∧ s.request_count ≤ s'.request_count) := by
  refine ⟨log_traffic_getElem today down up store hdates, ?_, ?_⟩
  · exact log_traffic_append_of_absent today down up store
  · intro i s h
    refine ⟨if s.date = today then bumpStats s down up else s,
      log_traffic_getElem today down up store hdates i s h, ?_, ?_, ?_, ?_⟩ <;>
      by_cases hc : s.date = today <;> simp [hc, bumpStats]

/-- Witness for C9: one stored row for the day `"2026-10-11"` with counters
`(5, 6, 7)`; logging `(10, 20)` on that day yields `(15, 26, 8)`. -/
theorem log_traffic_spec_witness :
    (log_traffic [{ date := "2026-10-11", download_bytes := 5,
                    upload_bytes := 6, request_count := 7 }]
        "2026-10-11" 10 20)[0]? =
      some { date := "2026-10-11", download_bytes := 15, upload_bytes := 26,
             request_count := 8 } := by
  have h := (log_traffic_spec
    [{ date := "2026-10-11", download_bytes := 5, upload_bytes := 6,
       request_count := 7 }] "2026-10-11" 10 20 (by decide)).1 0
    { date := "2026-10-11", download_bytes := 5, upload_bytes := 6,
      request_count := 7 } rfl
  exact h.trans (by decide)

theorem drop_append_length {α : Type} (l1 l2 : List α) (j : Nat) :
    (l1 ++ l2).drop (l1.length + j) = l2.drop j := by
  rw [← List.drop_drop j l1.length (l1 ++ l2), List.drop_left]

theorem replaceAllFuel_of_no_match (pat new : List Char) :
    ∀ (fuel : Nat) (l : List Char),
      (∀ i, pat.isPrefixOf (l.drop i) = false) →
      replaceAllFuel pat new fuel l = l := by
  intro fuel
  induction fuel with
  | zero =>
    intro l _
    cases l <;> rfl
  | succ fu ih =>
    intro l h
    cases l with
    | nil => rfl
    | cons c cs =>
      have h0 : pat.isPrefixOf (c :: cs) = false := by simpa using h 0
      simp only [replaceAllFuel]
      rw [if_neg (by simp [h0])]
      exact congrArg (c :: ·)
        (ih cs (fun i => by simpa [List.drop_succ_cons] using h (i + 1)))

theorem replaceAllFuel_boundary (pat new suf : List Char) (hpat : pat ≠ []) :
    ∀ (pre : List Char) (fuel : Nat), pre.length < fuel →
      (∀ i, pat.isPrefixOf ((pre ++ pat ++ suf).drop i) = true →
        i = pre.length) →
      replaceAllFuel pat new fuel (pre ++ pat ++ suf) = pre ++ new ++ suf := by
  intro pre
  induction pre with
  | nil =>
    intro fuel hf huniq
    cases fuel with
    | zero => omega
    | succ fu =>
      simp only [List.nil_append] at huniq ⊢
      cases hp : pat with
      | nil => exact absurd hp hpat
      | cons p ps =>
        subst hp
        simp only [List.cons_append]
        simp only [replaceAllFuel]
        rw [if_pos ?hcond]
        case hcond =>
          refine ⟨by simp, ?_⟩
          have hpref : (p :: ps).isPrefixOf ((p :: ps) ++ suf) = true := by
            rw [List.isPrefixOf_iff_prefix]
            exact List.prefix_append _ _
          simpa [List.cons_append] using hpref
        have hdrop : (p :: (ps ++ suf)).drop (p :: ps).length = suf := by
          have := List.drop_left (p :: ps) suf
          simpa [List.cons_append] using this
        rw [hdrop]
        refine congrArg (new ++ ·) ?_
        apply replaceAllFuel_of_no_match (p :: ps) new fu suf
        intro i
        by_contra hcon
        simp only [Bool.not_eq_false] at hcon
        have hdd : ((p :: ps) ++ suf).drop ((p :: ps).length + i) = suf.drop i :=
          drop_append_length (p :: ps) suf i
        have hidx := huniq ((p :: ps).length + i)
          (by rw [hdd]; exact hcon)
        simp at hidx
  | cons c pre' ih =>
    intro fuel hf huniq
    cases fuel with
    | zero => omega
    | succ fu =>
      simp only [List.cons_append] at huniq ⊢
      simp only [replaceAllFuel]
      have hneg : ¬(pat ≠ [] ∧
          pat.isPrefixOf (c :: (pre' ++ pat ++ suf)) = true) := by
        rintro ⟨-, hpre⟩
        have h0 := huniq 0 (by simpa using hpre)
        simp at h0
      rw [if_neg hneg]
      refine congrArg (c :: ·) ?_
      apply ih fu (by simp at hf; omega)
      intro i hi
      have h2 := huniq (i + 1) (by simpa [List.drop_succ_cons] using hi)
      simp only [List.length_cons] at h2
      omega

/-- C3 amended: the `WWW-Authenticate` rewrite is total and, when no realm
parses, forwards the header byte-for-byte unmodified; when a realm `r` parses,
the rewrite is Python `str.replace` of `r` by the proxy token URL over the
whole header, so every other parameter is preserved verbatim exactly when the
realm value occurs nowhere else in the header (unique-occurrence hypothesis) —
a parameter containing the realm value as a substring is rewritten too. -/
theorem rewrite_www_authenticate_spec (scheme netloc : String) :
    (∀ h : String, searchRealm h.data = none →
        rewrite_www_authenticate h scheme netloc = h)
    ∧ (∀ (h : String) (pre r suf : List Char), h.data = pre ++ r ++ suf →
        searchRealm h.data = some r → r ≠ [] →
        (∀ i, r.isPrefixOf ((pre ++ r ++ suf).drop i) = true →
          i = pre.length) →
        rewrite_www_authenticate h scheme netloc =
          String.mk (pre ++ (tokenUrl scheme netloc).data ++ suf)) := by
  constructor
  · intro h hn
    unfold rewrite_www_authenticate
    rw [hn]
  · intro h pre r suf hsplit hsome hne huniq
    unfold rewrite_www_authenticate
    rw [hsome]
    unfold replaceAll
    rw [hsplit]
    refine congrArg String.mk ?_
    apply replaceAllFuel_boundary r _ suf hne pre _ ?_ huniq
    have hrlen : 0 < r.length := List.length_pos.mpr hne
    simp [List.length_append]
    omega

/-- C3 counterexample: header `Bearer realm="x",service="xy"` — the `service`
parameter contains the realm value `x` as a substring, so the substring
replace rewrites it too instead of preserving it verbatim. -/
theorem rewrite_www_authenticate_corrupts :
    rewrite_www_authenticate "Bearer realm=\"x\",service=\"xy\"" "https"
        "mirror.local" =
      "Bearer realm=\"https://mirror.local/token\",service=\"https://mirror.local/tokeny\""
    ∧ rewrite_www_authenticate "Bearer realm=\"x\",service=\"xy\"" "https"
        "mirror.local" ≠
      "Bearer realm=\"https://mirror.local/token\",service=\"xy\"" := by
  constructor <;> decide

/-- Witness for C3 at the header `Bearer realm="u",service="s"`: the realm
value `u` occurs only inside the realm parameter, so only the realm is
rewritten and the rest of the header survives verbatim. -/
theorem rewrite_www_authenticate_spec_witness :
    rewrite_www_authenticate "Bearer realm=\"u\",service=\"s\"" "https" "p" =
      "Bearer realm=\"https://p/token\",service=\"s\"" := by
  have hball : ∀ j, j < 64 →
      ((['u'] : List Char).isPrefixOf
        (("Bearer realm=\"".data ++ ['u'] ++ "\",service=\"s\"".data).drop j)
          = true → j = "Bearer realm=\"".data.length) := by decide
  have hb : ∀ i, (['u'] : List Char).isPrefixOf
      (("Bearer realm=\"".data ++ ['u'] ++ "\",service=\"s\"".data).drop i)
        = true → i = "Bearer realm=\"".data.length := by
    intro i hi
    by_cases hlt : i < 64
    · exact hball i hlt hi
    · exfalso
      rw [List.drop_eq_nil_of_le
        (le_trans (by decide) (le_of_not_lt hlt))] at hi
      simp [List.isPrefixOf] at hi
  have h2 := (rewrite_www_authenticate_spec "https" "p").2
    "Bearer realm=\"u\",service=\"s\"" "Bearer realm=\"".data ['u']
    "\",service=\"s\"".data (by decide) (by decide) (by decide) hb
  exact h2.trans (by decide)

theorem ingestStep_inv (acc : List ProxyNode × List String × Nat)
    (item : CandidateItem)
    (h1 : acc.2.1 = acc.1.map (fun n => n.url))
    (h2 : ∀ n ∈ acc.1, n.url = rstripSlashes n.url
      ∨ n.url = rstripSlashes n.url ++ "/")
    (h3 : (acc.1.map (fun n => rstripSlashes n.url)).Nodup) :
    (ingestStep acc item).2.1 = (ingestStep acc item).1.map (fun n => n.url)
    ∧ (∀ n ∈ (ingestStep acc item).1, n.url = rstripSlashes n.url
        ∨ n.url = rstripSlashes n.url ++ "/")
    ∧ ((ingestStep acc item).1.map (fun n => rstripSlashes n.url)).Nodup := by
  unfold ingestStep
  by_cases ht : item.tags.any tagBad
  · simp only [ht, if_true]
    exact ⟨h1, h2, h3⟩
  · simp only [ht, if_false, Bool.false_eq_true]
    cases hurl : item.url with
    | none => exact ⟨h1, h2, h3⟩
    | some u0 =>
      by_cases hu0 : u0 = ""
      · simp only [hu0, if_pos rfl]
        exact ⟨h1, h2, h3⟩
      · simp only [if_neg hu0]
        by_cases hin : rstripSlashes u0 ∈ acc.2.1
            ∨ (rstripSlashes u0 ++ "/") ∈ acc.2.1
        · simp only [if_pos hin]
          exact ⟨h1, h2, h3⟩
        · simp only [if_neg hin]
          have hnorm : rstripSlashes (rstripSlashes u0) = rstripSlashes u0 :=
            rstripSlashes_idem u0
          refine ⟨?_, ?_, ?_⟩
          · simp only [List.map_append, List.map_cons, List.map_nil]
            rw [h1]
          · intro n hn
            rcases List.mem_append.mp hn with hold | hnew
            · exact h2 n hold
            · rcases List.mem_singleton.mp hnew with rfl
              exact Or.inl hnorm.symm
          · simp only [List.map_append, List.map_cons, List.map_nil]
            rw [List.nodup_append]
            refine ⟨h3, by simp, ?_⟩
            intro a ha hb
            simp only [hnorm, List.mem_singleton] at hb
            obtain ⟨n, hn, hnu⟩ := List.mem_map.mp ha
            rcases h2 n hn with hform | hform
            · apply hin
              left
              rw [h1]
              have : n.url = rstripSlashes u0 := by rw [hform, hnu, hb]
              rw [← this]
              exact List.mem_map_of_mem _ hn
            · apply hin
              right
              rw [h1]
              have : n.url = rstripSlashes u0 ++ "/" := by
                rw [hform, hnu, hb]
              rw [← this]
              exact List.mem_map_of_mem _ hn

theorem foldl_ingestStep_inv :
    ∀ (items : List CandidateItem) (acc : List ProxyNode × List String × Nat),
      acc.2.1 = acc.1.map (fun n => n.url) →
      (∀ n ∈ acc.1, n.url = rstripSlashes n.url
        ∨ n.url = rstripSlashes n.url ++ "/") →
      (acc.1.map (fun n => rstripSlashes n.url)).Nodup →
      ((items.foldl ingestStep acc).1.map (fun n => rstripSlashes n.url)).Nodup := by
  intro items
  induction items with
  | nil => intro acc _ _ h3; exact h3
  | cons it its ih =>
    intro acc h1 h2 h3
    simp only [List.foldl_cons]
    obtain ⟨g1, g2, g3⟩ := ingestStep_inv acc it h1 h2 h3
    exact ih (ingestStep acc it) g1 g2 g3

/-- C8 amended: the periodic ingestion `fetch_and_update_proxies` deduplicates
candidates against the stored urls (matching the normalized candidate url or
that url plus a trailing slash) and within the batch, so — provided every
stored url is its own normalization up to one trailing slash and the stored
normalized urls are distinct — ingestion preserves at-most-one-row-per-
normalized-url; manual addition `add_proxy`, by contrast, performs no
deduplication at all and appends its row unconditionally. -/
theorem fetch_ingest_dedup (store : List ProxyNode)
    (items : List CandidateItem) (startId : Nat)
    (h1 : ∀ n ∈ store, n.url = rstripSlashes n.url
      ∨ n.url = rstripSlashes n.url ++ "/")
    (h2 : (store.map (fun n => rstripSlashes n.url)).Nodup) :
    ((fetch_ingest store items startId).map
      (fun n => rstripSlashes n.url)).Nodup
    ∧ (∀ (s : List ProxyNode) (nid : Nat) (nm u rt : String)
        (rp un pw : Option String),
        add_proxy s nid nm u rt rp un pw =
          s ++ [{ id := nid, name := nm, url := u, registry_type := rt,
                  routePref := rp, username := un, password := pw }]) := by
  constructor
  · exact foldl_ingestStep_inv items (store, store.map (fun n => n.url),
      startId) rfl h1 h2
  · intro s nid nm u rt rp un pw
    rfl

/-- C8 counterexample: `add_proxy` performs no deduplication — adding the url
`https://m.example.com/` to a store already holding `https://m.example.com`
leaves two rows with the same normalized url, so the claim that every
node-creating operation preserves uniqueness fails. -/
theorem add_proxy_duplicate_url :
    ¬ (((add_proxy
          (add_proxy [] 1 "A" "https://m.example.com" "dockerhub"
            none none none)
          2 "B" "https://m.example.com/" "dockerhub" none none none).map
        (fun n => rstripSlashes n.url)).Nodup) := by
  decide

/-- Witness for C8: a store holding `https://a`; the feed offers `https://a/`
(a duplicate up to normalization, skipped) and `https://b` (new); uniqueness
of normalized urls is preserved, and `add_proxy` appends unconditionally. -/
theorem fetch_ingest_dedup_witness :
    ((fetch_ingest [{ id := 1, name := "E", url := "https://a" }]
        [{ name := some "M", url := some "https://a/" },
         { name := some "N", url := some "https://b" }] 5).map
      (fun n => rstripSlashes n.url)).Nodup
    ∧ add_proxy [] 7 "X" "https://x.example" "dockerhub" none none none =
        [{ id := 7, name := "X", url := "https://x.example",
           registry_type := "dockerhub", routePref := none, username := none,
           password := none }] :=
  ⟨(fetch_ingest_dedup [{ id := 1, name := "E", url := "https://a" }]
      [{ name := some "M", url := some "https://a/" },
       { name := some "N", url := some "https://b" }] 5
      (by decide) (by decide)).1,
   (fetch_ingest_dedup [] [] 0 (by decide) (by decide)).2
      [] 7 "X" "https://x.example" "dockerhub" none none none⟩

/-- Witness for C4 (amended) at the empty store and path `"foo"`. -/
theorem get_best_proxy_pool_or_fallback_witness :
    ((get_best_proxy [] "foo").1 ∈ rankedPool []
      ∨ (get_best_proxy [] "foo").1 = fallback_node)
    ∧ (get_best_proxy [] "foo").1.enabled = true
    ∧ fallback_node.latency = 9999 :=
  ⟨(get_best_proxy_pool_or_fallback [] "foo").1,
   (get_best_proxy_pool_or_fallback [] "foo").2.1,
   (get_best_proxy_pool_or_fallback [] "foo").2.2.2⟩

/-- Witness for C10 at a concrete store and path: a leading slash does not
change the selection. -/
theorem get_best_proxy_leading_slash_witness :
    get_best_proxy
      [{ id := 1, name := "A", url := "https://a.example", latency := 5 }]
      "/lib/img" =
      get_best_proxy
        [{ id := 1, name := "A", url := "https://a.example", latency := 5 }]
        "lib/img" :=
  get_best_proxy_leading_slash
    [{ id := 1, name := "A", url := "https://a.example", latency := 5 }]
    "lib/img"
